import Mathlib

/-!
Verification of the web-based tuner's pitch-estimation core and note mapper.

The pitch estimator (`src/js/pitch-detection.js`, `detectPitch`) is embedded
over exact rationals; floating-point special values that the JavaScript code
can actually produce (NaN and infinities from division) are modelled
explicitly by the `JSNum` type, and every place where the JavaScript
semantics of `NaN` comparisons or out-of-bounds array reads matters is noted
in a comment at the corresponding branch.

The note mapper (note-recognition module: `noteFromFrequency`,
`frequencyFromNote`, `getInstrumentReferences`) is embedded over the real
numbers, since it is built on `log2` and `2 ^ (n/12)`.
-/

namespace Tuner

/-- A JavaScript number as far as this code can observe it: an exact value,
a signed infinity, or NaN. -/
inductive JSNum where
  | nan : JSNum
  | inf : Bool → JSNum
  | num : ℚ → JSNum
deriving DecidableEq

/-- JavaScript division of two finite numbers (the denominator taken as +0
when it is zero, which is how the zero denominators arise here: as exact
differences of stored values): `a / 0` is `NaN` for `a = 0` and a signed
infinity otherwise. -/
def jsDiv (a b : ℚ) : JSNum :=
  if b = 0 then
    if a = 0 then JSNum.nan
    else if 0 < a then JSNum.inf true else JSNum.inf false
  else JSNum.num (a / b)

/-- Embedding of `detectPitch(buffer, sampleRate)` from
`src/js/pitch-detection.js`. The correlation array is idealized to exact
rationals (the source stores it in a `Float32Array`). -/
def detectPitch (buffer : List ℚ) (sampleRate : ℚ) : JSNum :=
  let bufferLength := buffer.length
  let signalEnergySum : ℚ := (buffer.map (fun x => x * x)).sum
  -- JS: `signalEnergy = (Σ buffer[i]²) / bufferLength; if (signalEnergy < 0.001) return -1;`
  -- For an empty buffer the division is 0/0 = NaN and `NaN < 0.001` is false,
  -- so the gate can only fire on a non-empty buffer.
  if bufferLength ≠ 0 ∧ signalEnergySum / (bufferLength : ℚ) < 1/1000 then JSNum.num (-1)
  else
    -- unbiased autocorrelation: correlations[lag] = (Σ_{i < n-lag} b[i]·b[i+lag]) / (n - lag)
    let correlations : List ℚ := (List.range bufferLength).map (fun lag =>
      ((List.range (bufferLength - lag)).map
        (fun i => buffer.getD i 0 * buffer.getD (i + lag) 0)).sum / (bufferLength - lag : ℚ))
    let minPeriod : ℤ := ⌊sampleRate / 1500⌋
    let maxPeriod : ℤ := ⌈sampleRate / 50⌉
    let periods : List ℤ := (List.range (maxPeriod - minPeriod).toNat).map
      (fun k => minPeriod + k)
    -- JS peak search: `if (correlations[period] > bestCorrelation) ...`.
    -- An out-of-range read yields `undefined`, and `undefined > x` is false,
    -- so such periods never update the accumulator.
    let best : ℤ × ℚ := periods.foldl (fun acc period =>
      match (if 0 ≤ period then correlations.get? period.toNat else none) with
      | some c => if acc.2 < c then (period, c) else acc
      | none => acc) (-1, 0)
    let bestPeriod := best.1
    let bestCorrelation := best.2
    -- JS: `normalizedCorrelation = bestCorrelation / correlations[0]`.
    -- For an empty buffer `correlations[0]` is `undefined`, the quotient is
    -- NaN and `NaN < THRESHOLD` is false, so the clarity gate cannot fire.
    -- For a non-empty buffer that reached this point, correlations[0] equals
    -- the signal energy, which is at least 0.001, so the division is normal.
    if bufferLength ≠ 0 ∧ bestCorrelation / correlations.getD 0 0 < 1/5 then JSNum.num (-1)
    else
      let refinedPeriod : JSNum :=
        if 0 < bestPeriod ∧ bestPeriod < (bufferLength : ℤ) - 1 then
          let leftCorr := correlations.getD (bestPeriod - 1).toNat 0
          let centerCorr := correlations.getD bestPeriod.toNat 0
          let rightCorr := correlations.getD (bestPeriod + 1).toNat 0
          -- JS: `peakOffset = 0.5 * (leftCorr - rightCorr) / (leftCorr - 2*centerCorr + rightCorr)`
          -- with NO guard on the denominator: 0/0 gives NaN, x/0 gives ±∞,
          -- and adding either to `bestPeriod` keeps the special value.
          match jsDiv ((leftCorr - rightCorr) / 2) (leftCorr - 2 * centerCorr + rightCorr) with
          | JSNum.num q => JSNum.num (bestPeriod + q)
          | JSNum.inf s => JSNum.inf s
          | JSNum.nan => JSNum.nan
        else JSNum.num (bestPeriod : ℚ)
      -- JS: `frequency = sampleRate / refinedPeriod`: a finite sample rate
      -- over ±∞ is ±0, over NaN is NaN.
      match refinedPeriod with
      | JSNum.num q => jsDiv sampleRate q
      | JSNum.inf _ => JSNum.num 0
      | JSNum.nan => JSNum.nan

/-- A JavaScript value that is either a string, `null`, or `undefined` —
the three values the `note` field of the note-recognition result can take
(`null` from the explicit guard, `undefined` from an out-of-range array
read). -/
inductive JSStr where
  | null : JSStr
  | undef : JSStr
  | str : String → JSStr
deriving DecidableEq

/-- The result object of `noteFromFrequency`: `{ note, octave, cents }`.
In the guard branch the source returns `{ note: null, octave: null, cents: 0 }`,
so `octave` is an `Option`. -/
structure NoteResult where
  note : JSStr
  octave : Option ℤ
  cents : ℤ
deriving DecidableEq

/-- JavaScript `Math.round`: round half toward positive infinity,
`Math.round(x) = ⌊x + 0.5⌋`. -/
noncomputable def jsRound (x : ℝ) : ℤ := ⌊x + 1/2⌋

/-- The chromatic note-name table of the note-recognition module. -/
def NOTE_NAMES : List String :=
  ["C", "C#", "D", "D#", "E", "F"] ++ ["F#", "G", "G#", "A", "A#", "B"]

/-- JavaScript `Array.prototype.indexOf` on a list of strings: the index of
the first occurrence, or nothing when absent (the source compares the result
against `-1`). -/
def indexOfFrom (l : List String) (s : String) (k : ℕ) : Option ℕ :=
  match l with
  | [] => none
  | x :: xs => if x = s then some k else indexOfFrom xs s (k + 1)

/-- `NOTE_NAMES.indexOf(note)` as used by `frequencyFromNote`. -/
def noteIndexOf (note : String) : Option ℕ := indexOfFrom NOTE_NAMES note 0

/-- The rounded semitone index computed by `noteFromFrequency`:
`Math.round(12 * Math.log2(frequency / referenceFrequency))`. -/
noncomputable def halfStepsFromA4 (frequency referenceFrequency : ℝ) : ℤ :=
  jsRound (12 * Real.logb 2 (frequency / referenceFrequency))

/-- Embedding of `noteFromFrequency(frequency, referenceFrequency)` from the
note-recognition module.

JavaScript semantics captured here: the guard `!frequency || frequency <= 0`
collapses to `frequency ≤ 0` over the reals; `%` on integers is the
truncated remainder (`Int.tmod`), so `(halfSteps + 57) % 12` is negative for
`halfSteps < -57` and the array read `NOTE_NAMES[noteIndex]` then yields
`undefined`; `Math.floor((halfSteps + 57) / 12)` is floor division
(`Int.fdiv`). -/
noncomputable def noteFromFrequency (frequency referenceFrequency : ℝ) : NoteResult :=
  if frequency ≤ 0 then ⟨JSStr.null, none, 0⟩
  else
    let halfSteps : ℤ := halfStepsFromA4 frequency referenceFrequency
    let exactHalfSteps : ℝ := 12 * Real.logb 2 (frequency / referenceFrequency)
    let cents : ℤ := jsRound ((exactHalfSteps - halfSteps) * 100)
    let noteIndex : ℤ := (halfSteps + 57).tmod 12
    let octave : ℤ := (halfSteps + 57).fdiv 12
    let note : JSStr :=
      if noteIndex < 0 then JSStr.undef
      else match NOTE_NAMES.get? noteIndex.toNat with
        | some s => JSStr.str s
        | none => JSStr.undef
    ⟨note, some octave, cents⟩

/-- Embedding of `frequencyFromNote(note, octave, referenceFrequency)`:
`none` models the thrown `Invalid note name` error. -/
noncomputable def frequencyFromNote (note : String) (octave : ℤ)
    (referenceFrequency : ℝ) : Option ℝ :=
  match noteIndexOf note with
  | none => none
  | some noteIndex =>
    some (referenceFrequency * (2 : ℝ) ^ (((noteIndex : ℝ) + octave * 12 - 57) / 12))

/-- An instrument profile: the string labels and the derived open-string
frequencies (each entry is the value of the corresponding
`frequencyFromNote` call in the source). -/
structure InstrumentProfile where
  strings : List String
  frequencies : List (Option ℝ)

/-- Embedding of `getInstrumentReferences(instrument)`. The source calls
`frequencyFromNote` with its default reference of 440, since no reference
argument is passed. -/
noncomputable def getInstrumentReferences (instrument : String) : Option InstrumentProfile :=
  if instrument = "guitar" then
    some ⟨["E2", "A2", "D3", "G3", "B3", "E4"],
      [frequencyFromNote "E" 2 440, frequencyFromNote "A" 2 440,
       frequencyFromNote "D" 3 440, frequencyFromNote "G" 3 440,
       frequencyFromNote "B" 3 440, frequencyFromNote "E" 4 440]⟩
  else if instrument = "bass" then
    some ⟨["E1", "A1", "D2", "G2"],
      [frequencyFromNote "E" 1 440, frequencyFromNote "A" 1 440,
       frequencyFromNote "D" 2 440, frequencyFromNote "G" 2 440]⟩
  else if instrument = "violin" then
    some ⟨["G3", "D4", "A4", "E5"],
      [frequencyFromNote "G" 3 440, frequencyFromNote "D" 4 440,
       frequencyFromNote "A" 4 440, frequencyFromNote "E" 5 440]⟩
  else if instrument = "ukulele" then
    some ⟨["G4", "C4", "E4", "A4"],
      [frequencyFromNote "G" 4 440, frequencyFromNote "C" 4 440,
       frequencyFromNote "E" 4 440, frequencyFromNote "A" 4 440]⟩
  else none

/-- Split a string label such as `"E2"` or `"A4"` into its note name and
octave digit (all labels in the instrument table are a name followed by one
digit). -/
def parseLabel (s : String) : String × ℤ :=
  (s.dropRight 1, ((s.takeRight 1).toNat?.getD 0 : ℤ))

/-! ### Helper lemmas -/

theorem jsRound_le (x : ℝ) : (jsRound x : ℝ) ≤ x + 1/2 :=
  Int.floor_le (x + 1/2)

theorem lt_jsRound_add_one (x : ℝ) : x + 1/2 < jsRound x + 1 :=
  Int.lt_floor_add_one (x + 1/2)

theorem floor_half : ⌊(1 : ℝ)/2⌋ = 0 := by
  rw [Int.floor_eq_iff]
  constructor
  · norm_num
  · norm_num

theorem jsRound_intCast (m : ℤ) : jsRound (m : ℝ) = m := by
  rw [jsRound, Int.floor_int_add, floor_half, add_zero]

set_option maxRecDepth 8000

/-! ### C1 and C2 -/

/-- C1 (amended): a non-empty sample window that is all zeros, or whose
mean-square energy is below the silence threshold 0.001, makes `detectPitch`
return the no-pitch sentinel `-1` through the energy gate. -/
theorem detectPitch_silence (buffer : List ℚ) (sampleRate : ℚ)
    (hne : buffer ≠ [])
    (h : (∀ x ∈ buffer, x = 0) ∨
      (buffer.map (fun x => x * x)).sum / (buffer.length : ℚ) < 1/1000) :
    detectPitch buffer sampleRate = JSNum.num (-1) := by
  have hlen : buffer.length ≠ 0 := by
    simpa [List.length_eq_zero] using hne
  have henergy : (buffer.map (fun x => x * x)).sum / (buffer.length : ℚ) < 1/1000 := by
    rcases h with hz | hlt
    · have hsum : (buffer.map (fun x => x * x)).sum = 0 := by
        apply List.sum_eq_zero
        intro y hy
        obtain ⟨x, hx, rfl⟩ := List.mem_map.mp hy
        rw [hz x hx]; ring
      rw [hsum, zero_div]; norm_num
    · exact hlt
  unfold detectPitch
  rw [if_pos ⟨hlen, henergy⟩]

/-- C1 witness: the all-zero window `[0, 0, 0]` at 44100 Hz returns `-1`. -/
theorem detectPitch_silence_concrete :
    detectPitch [0, 0, 0] 44100 = JSNum.num (-1) :=
  detectPitch_silence [0, 0, 0] 44100 (by simp)
    (Or.inl (by intro x hx; simpa using hx))

/-- C1 counterexample: on an empty window the energy gate does not fire
(`0/0` is NaN and `NaN < 0.001` is false in JavaScript), and `detectPitch`
returns `-sampleRate` instead of the sentinel `-1`. -/
theorem detectPitch_empty_not_sentinel :
    detectPitch ([] : List ℚ) 1500 = JSNum.num (-1500) ∧
      detectPitch ([] : List ℚ) 1500 ≠ JSNum.num (-1) := by
  with_unfolding_all decide

/-- C2: on a constant window the autocorrelation is flat, the interpolation
denominator `leftCorr - 2*centerCorr + rightCorr` is zero, and because the
source has no guard the peak offset is `0/0 = NaN`; `detectPitch` returns
NaN instead of falling back to the integer lag. -/
theorem detectPitch_flat_correlation_nan :
    detectPitch [1, 1, 1] 1500 = JSNum.nan := by
  with_unfolding_all decide

/-! ### C3 and C6 -/

/-- C3: for every positive reference frequency `R`,
`noteFromFrequency(R, R)` is note "A", octave 4, cents 0. -/
theorem noteFromFrequency_at_reference (R : ℝ) (hR : 0 < R) :
    noteFromFrequency R R = ⟨JSStr.str "A", some 4, 0⟩ := by
  have hlog : Real.logb 2 (R / R) = 0 := by rw [div_self hR.ne', Real.logb_one]
  have hsteps : halfStepsFromA4 R R = 0 := by
    rw [halfStepsFromA4, hlog, mul_zero]
    simpa using jsRound_intCast 0
  rw [noteFromFrequency, if_neg (not_le.mpr hR)]
  simp only [hsteps, hlog, mul_zero]
  norm_num
  constructor
  · decide
  · simpa using jsRound_intCast 0

/-- C3 witness: at the default reference, `noteFromFrequency 440 440`
is A4 with 0 cents. -/
theorem noteFromFrequency_at_reference_440 :
    noteFromFrequency 440 440 = ⟨JSStr.str "A", some 4, 0⟩ :=
  noteFromFrequency_at_reference 440 (by norm_num)

/-- C6: `noteFromFrequency` returns the no-note sentinel
`{ note: null, octave: null, cents: 0 }` exactly when the frequency is
nonpositive; in particular the estimator sentinel `-1` yields it. -/
theorem noteFromFrequency_sentinel (frequency R : ℝ) :
    (noteFromFrequency frequency R = ⟨JSStr.null, none, 0⟩ ↔ frequency ≤ 0) ∧
      noteFromFrequency (-1) R = ⟨JSStr.null, none, 0⟩ := by
  refine ⟨⟨fun h => ?_, fun h => by rw [noteFromFrequency, if_pos h]⟩, ?_⟩
  · by_contra hpos
    rw [noteFromFrequency, if_neg hpos] at h
    simpa using congrArg NoteResult.octave h
  · rw [noteFromFrequency, if_pos (by norm_num)]

/-! ### C5: cents bound -/

theorem centsRound_bounds (x : ℝ) :
    -50 ≤ jsRound ((x - jsRound x) * 100) ∧ jsRound ((x - jsRound x) * 100) ≤ 50 := by
  have h1 : (jsRound x : ℝ) ≤ x + 1/2 := jsRound_le x
  have h2 : x + 1/2 < jsRound x + 1 := lt_jsRound_add_one x
  constructor
  · rw [jsRound]
    apply Int.le_floor.mpr
    push_cast
    nlinarith
  · have hlt : ((x - jsRound x) * 100 + 1/2) < ((51 : ℤ) : ℝ) := by push_cast; nlinarith
    have := Int.floor_lt.mpr hlt
    rw [jsRound]
    omega

/-- C5: for positive frequency and reference, the cents value of
`noteFromFrequency` lies in `[-50, 50]`; a frequency exactly halfway
between two semitones (exact semitone distance `k + 1/2`) lands on the
rounding boundary and yields cents `-50` (the JavaScript `Math.round`
rounds the half step up to the next note). -/
theorem noteFromFrequency_cents_bound (frequency R : ℝ) (hf : 0 < frequency) (hR : 0 < R) :
    (-50 ≤ (noteFromFrequency frequency R).cents ∧
        (noteFromFrequency frequency R).cents ≤ 50) ∧
      (∀ k : ℤ, 12 * Real.logb 2 (frequency / R) = k + 1/2 →
        (noteFromFrequency frequency R).cents = -50) := by
  rw [noteFromFrequency, if_neg (not_le.mpr hf)]
  constructor
  · exact centsRound_bounds _
  · intro k hk
    have hn : halfStepsFromA4 frequency R = k + 1 := by
      rw [halfStepsFromA4, hk, jsRound]
      have : (k : ℝ) + 1/2 + 1/2 = ((k + 1 : ℤ) : ℝ) := by push_cast; ring
      rw [this, Int.floor_intCast]
    show jsRound ((12 * Real.logb 2 (frequency / R) -
      (halfStepsFromA4 frequency R : ℝ)) * 100) = -50
    rw [hn, hk]
    have : ((k : ℝ) + 1/2 - ((k + 1 : ℤ) : ℝ)) * 100 = ((-50 : ℤ) : ℝ) := by
      push_cast; ring
    rw [this, jsRound_intCast]

/-- C5 witness: at frequency 440 and reference 440 the cents value is
within the bound. -/
theorem noteFromFrequency_cents_bound_440 :
    -50 ≤ (noteFromFrequency 440 440).cents ∧ (noteFromFrequency 440 440).cents ≤ 50 :=
  (noteFromFrequency_cents_bound 440 440 (by norm_num) (by norm_num)).1

/-! ### C9: monotonicity of the semitone index -/

/-- C9: for a fixed positive reference, the rounded semitone index computed
by `noteFromFrequency` is monotone non-decreasing in the frequency. -/
theorem halfSteps_monotone (R f1 f2 : ℝ) (hR : 0 < R) (h1 : 0 < f1) (h12 : f1 ≤ f2) :
    halfStepsFromA4 f1 R ≤ halfStepsFromA4 f2 R := by
  have hd1 : 0 < f1 / R := div_pos h1 hR
  have hle : f1 / R ≤ f2 / R := by gcongr
  have hlog : Real.logb 2 (f1 / R) ≤ Real.logb 2 (f2 / R) :=
    Real.logb_le_logb_of_le (by norm_num) hd1 hle
  rw [halfStepsFromA4, halfStepsFromA4, jsRound, jsRound]
  exact Int.floor_le_floor (by linarith)

/-- C9 witness: the semitone index at 440 Hz is at most the one at 880 Hz
(reference 440). -/
theorem halfSteps_monotone_octave :
    halfStepsFromA4 440 440 ≤ halfStepsFromA4 880 440 :=
  halfSteps_monotone 440 440 880 (by norm_num) (by norm_num) (by norm_num)

/-! ### C7: frequencyFromNote contract -/

theorem indexOfFrom_eq_none_iff (l : List String) (s : String) :
    ∀ k : ℕ, (indexOfFrom l s k = none ↔ s ∉ l) := by
  induction l with
  | nil => intro k; simp [indexOfFrom]
  | cons x xs ih =>
    intro k
    by_cases hx : x = s
    · simp [indexOfFrom, hx]
    · simp [indexOfFrom, hx, ih]
      exact fun _ h => hx h.symm

/-- C7: `frequencyFromNote` fails (invalid-note error, modelled as `none`)
exactly when the note name is not one of the 12 chromatic names, and on a
recognized name with chromatic index `k` it returns
`referenceFreq * 2 ^ ((k + 12*octave - 57) / 12)`. -/
theorem frequencyFromNote_invalid_iff (note : String) (octave : ℤ) (R : ℝ) :
    (frequencyFromNote note octave R = none ↔ note ∉ NOTE_NAMES) ∧
      ∀ k : ℕ, noteIndexOf note = some k →
        frequencyFromNote note octave R =
          some (R * (2 : ℝ) ^ (((k : ℝ) + octave * 12 - 57) / 12)) := by
  constructor
  · cases heq : noteIndexOf note with
    | none =>
      simp only [frequencyFromNote, noteIndexOf] at *
      simp [heq, (indexOfFrom_eq_none_iff NOTE_NAMES note 0).mp heq]
    | some k =>
      have hmem : note ∈ NOTE_NAMES := by
        by_contra hno
        rw [← indexOfFrom_eq_none_iff NOTE_NAMES note 0] at hno
        rw [noteIndexOf] at heq
        rw [hno] at heq
        exact Option.noConfusion heq
      simp [frequencyFromNote, heq, hmem]
  · intro k hk
    simp [frequencyFromNote, hk]

/-- C7 witness: "A" has chromatic index 9, so A4 at reference 440 maps to
`440 * 2 ^ ((9 + 48 - 57)/12)`. -/
theorem frequencyFromNote_A4_formula :
    frequencyFromNote "A" 4 440 =
      some (440 * (2 : ℝ) ^ ((((9 : ℕ) : ℝ) + ((4 : ℤ) : ℝ) * 12 - 57) / 12)) :=
  (frequencyFromNote_invalid_iff "A" 4 440).2 9 (by decide)

/-! ### C4: round trip -/

theorem indexOfFrom_some (l : List String) (s : String) :
    ∀ i k, indexOfFrom l s i = some k → i ≤ k ∧ l.get? (k - i) = some s := by
  induction l with
  | nil => intro i k h; exact absurd h (by simp [indexOfFrom])
  | cons x xs ih =>
    intro i k h
    rw [indexOfFrom] at h
    by_cases hx : x = s
    · rw [if_pos hx] at h
      obtain rfl : i = k := Option.some.inj h
      simp [hx]
    · rw [if_neg hx] at h
      obtain ⟨hik, hget⟩ := ih (i + 1) k h
      refine ⟨by omega, ?_⟩
      have : k - i = (k - (i + 1)) + 1 := by omega
      rw [this]
      simpa using hget

theorem noteFromFrequency_pow (R : ℝ) (hR : 0 < R) (m : ℤ) :
    noteFromFrequency (R * (2 : ℝ) ^ ((m : ℝ) / 12)) R =
      ⟨(if (m + 57).tmod 12 < 0 then JSStr.undef
        else match NOTE_NAMES.get? ((m + 57).tmod 12).toNat with
          | some s => JSStr.str s
          | none => JSStr.undef),
       some ((m + 57).fdiv 12), 0⟩ := by
  have hpow : (0 : ℝ) < (2 : ℝ) ^ ((m : ℝ) / 12) :=
    Real.rpow_pos_of_pos (by norm_num) _
  have hf : 0 < R * (2 : ℝ) ^ ((m : ℝ) / 12) := mul_pos hR hpow
  have hq : R * (2 : ℝ) ^ ((m : ℝ) / 12) / R = (2 : ℝ) ^ ((m : ℝ) / 12) :=
    mul_div_cancel_left₀ _ hR.ne'
  have hsteps : 12 * Real.logb 2 (R * (2 : ℝ) ^ ((m : ℝ) / 12) / R) = ((m : ℤ) : ℝ) := by
    rw [hq, Real.logb_rpow (by norm_num) (by norm_num)]
    ring
  have hn : halfStepsFromA4 (R * (2 : ℝ) ^ ((m : ℝ) / 12)) R = m := by
    rw [halfStepsFromA4, hsteps, jsRound_intCast]
  rw [noteFromFrequency, if_neg (not_le.mpr hf)]
  simp only [hn, hsteps]
  have hc : (((m : ℤ) : ℝ) - ((m : ℤ) : ℝ)) * 100 = ((0 : ℤ) : ℝ) := by push_cast; ring
  rw [hc, jsRound_intCast]

/-- C4 (amended): the round trip holds for every recognized note name,
every octave with `chromaticIndex + 12*octave ≥ 0` (equivalently
`octave ≥ 0`), and every positive reference; the cents come out exactly 0
in the real-number model. For negative octaves the truncated `%` makes the
note index negative and the name lookup yields `undefined` (see the
counterexample). -/
theorem noteRoundTrip (name : String) (octave : ℤ) (R : ℝ)
    (hname : name ∈ NOTE_NAMES) (hoct : 0 ≤ octave) (hR : 0 < R) :
    (frequencyFromNote name octave R).map (fun f => noteFromFrequency f R) =
      some ⟨JSStr.str name, some octave, 0⟩ := by
  cases heq : noteIndexOf name with
  | none =>
    rw [noteIndexOf, indexOfFrom_eq_none_iff] at heq
    exact absurd hname heq
  | some k =>
    obtain ⟨-, hget⟩ := indexOfFrom_some NOTE_NAMES name 0 k heq
    rw [Nat.sub_zero] at hget
    have hklt : k < 12 := by
      have := (List.get?_eq_some.mp hget).1
      simpa [NOTE_NAMES] using this
    have hfreq : frequencyFromNote name octave R =
        some (R * (2 : ℝ) ^ ((((k : ℤ) + octave * 12 - 57 : ℤ) : ℝ) / 12)) := by
      rw [frequencyFromNote, heq]
      norm_num
    rw [hfreq, Option.map_some']
    rw [noteFromFrequency_pow R hR _]
    have h57 : (k : ℤ) + octave * 12 - 57 + 57 = (k : ℤ) + octave * 12 := by omega
    have htmod : ((k : ℤ) + octave * 12 - 57 + 57).tmod 12 = (k : ℤ) := by
      rw [h57, Int.tmod_eq_emod (by omega) (by omega), Int.add_mul_emod_self]
      exact Int.emod_eq_of_lt (by omega) (by exact_mod_cast hklt)
    have hfdiv : ((k : ℤ) + octave * 12 - 57 + 57).fdiv 12 = octave := by
      rw [h57, Int.fdiv_eq_ediv _ (by omega),
        Int.add_mul_ediv_right _ _ (by omega : (12 : ℤ) ≠ 0),
        Int.ediv_eq_zero_of_lt (by omega) (by exact_mod_cast hklt), zero_add]
    rw [htmod, hfdiv]
    have hk0 : ¬ ((k : ℤ) < 0) := by omega
    rw [if_neg hk0, Int.toNat_natCast, hget]

/-- C4 witness: the round trip at A4 with reference 440. -/
theorem noteRoundTrip_A4 :
    (frequencyFromNote "A" 4 440).map (fun f => noteFromFrequency f 440) =
      some ⟨JSStr.str "A", some 4, 0⟩ :=
  noteRoundTrip "A" 4 440 (by decide) (by norm_num) (by norm_num)

/-- C4 counterexample: at octave `-1` the claim fails: `C#(-1)` maps back
to note `undefined` (the truncated remainder `(-11) % 12 = -11` indexes the
name table out of range), not to "C#". -/
theorem noteRoundTrip_negative_octave :
    (frequencyFromNote "C#" (-1) 440).map (fun f => (noteFromFrequency f 440).note) ≠
      some (JSStr.str "C#") := by
  have heq : noteIndexOf "C#" = some 1 := by decide
  have hfreq : frequencyFromNote "C#" (-1) 440 =
      some (440 * (2 : ℝ) ^ (((-68 : ℤ) : ℝ) / 12)) := by
    rw [frequencyFromNote, heq]
    norm_num
  rw [hfreq, Option.map_some', noteFromFrequency_pow 440 (by norm_num) (-68)]
  decide

/-! ### C8 and C10: instrument profiles -/

/-- C8: the guitar profile has exactly the six strings E2 A2 D3 G3 B3 E4 in
that order, and an unrecognized instrument yields `none` rather than an
error. -/
theorem instrumentLookup :
    (getInstrumentReferences "guitar").map (fun p => p.strings) =
        some ["E2", "A2", "D3", "G3", "B3", "E4"] ∧
      getInstrumentReferences "unknown" = none :=
  ⟨rfl, rfl⟩

/-- C10: for every recognized instrument, each derived string frequency is
`frequencyFromNote` of that string's name and octave at the fixed reference
440 (`getInstrumentReferences` takes no reference parameter and the source
calls `frequencyFromNote` with its default). -/
theorem instrumentFrequencies_fixed_440 (instrument : String) (p : InstrumentProfile)
    (h : getInstrumentReferences instrument = some p) :
    p.frequencies = p.strings.map
      (fun s => frequencyFromNote (parseLabel s).1 (parseLabel s).2 440) := by
  rw [getInstrumentReferences] at h
  split_ifs at h
  all_goals obtain rfl := Option.some.inj h
  all_goals with_unfolding_all rfl

/-- C10 witness: the guitar profile instantiates the statement. -/
theorem instrumentFrequencies_fixed_440_guitar :
    ((getInstrumentReferences "guitar").getD ⟨[], []⟩).frequencies =
      ((getInstrumentReferences "guitar").getD ⟨[], []⟩).strings.map
        (fun s => frequencyFromNote (parseLabel s).1 (parseLabel s).2 440) :=
  instrumentFrequencies_fixed_440 "guitar" _ rfl

end Tuner
